import Mathlib

/-!
# Verification of the highlight-date extension core

Shallow embedding of the date-highlighting pipeline found in this repository.
The repository contains two variants of `src/extension.ts`:

* variant **V1** (`src/src/extension.ts`): word-boundary regex
  `\b\d{4}-\d{2}-\d{2}\b`, no calendar validation before `new Date`,
  calendar-day distance `Math.ceil((date - today)/86400000)`, one decoration
  type per raw positive distance, linear red→blue colour ramp capped at 50;

* variant **V2** (second file inside `src/unnamed/part_000`): whitespace
  look-around regex, `date-fns` validation (`parse`/`isValid`), business-day
  distance (`eachDayOfInterval` + `isWeekend`), Fibonacci-boundary bucketing
  and an HSL hue ramp; its styled range runs from
  `positionAt(match.index - 1)` to `positionAt(match.index + length + 1)`
  (`positionAt` clamps offsets to the document).

JS numbers are embedded as `ℤ`/`ℚ`; the NaN produced by V1 on an invalid
date is embedded as `Option ℤ` with `none` playing NaN.  Dates are embedded
as days-since-1970-01-01 (so 1970-01-01 is day 0, a Thursday, and JS
`getDay` is `(day + 4) % 7`).  Whitespace is modelled by the ASCII part of
JS `\s`; DST is ignored (every civil day is 86400000 ms), time zones are a
minute offset parameter `tzMin` (minutes east of UTC, `|tzMin| < 1440`).
-/

/-! ## Calendar basics (ECMAScript / date-fns day arithmetic) -/

/-- JS `Date.prototype.getDay` for a date given as days since the epoch:
1970-01-01 was a Thursday (= 4), Sunday is 0, Saturday is 6. -/
def dayOfWeek (day : ℤ) : ℤ := (day + 4) % 7

/-- `date-fns` `isWeekend`: the day is a Saturday or a Sunday. -/
def isWeekend (day : ℤ) : Bool := dayOfWeek day == 0 || dayOfWeek day == 6

/-- Gregorian leap-year rule, as used by both `new Date` range checking and
the `date-fns` parser. -/
def isLeapYear (y : ℕ) : Bool := (y % 4 == 0 && y % 100 != 0) || y % 400 == 0

/-- Number of days in month `m` (1..12) of year `y`. -/
def daysInMonth (y m : ℕ) : ℕ :=
  if m == 2 then (if isLeapYear y then 29 else 28)
  else if m == 4 || m == 6 || m == 9 || m == 11 then 30
  else 31

/-- Validity test performed by the ECMAScript ISO parser used in
`new Date("yyyy-mm-dd")` (V1): month in 1..12 and day in 1..daysInMonth.
An out-of-range component yields an Invalid Date (NaN timestamp). -/
def newDateValid (y m d : ℕ) : Bool :=
  1 ≤ m && m ≤ 12 && 1 ≤ d && d ≤ daysInMonth y m

/-- Validity test of `date-fns` `parse(dateStr, 'yyyy-MM-dd', ...)` followed
by `isValid` — V2's `isValidDate`.  The `yyyy` token additionally requires a
positive calendar year. -/
def dateFnsValid (y m d : ℕ) : Bool := 1 ≤ y && newDateValid y m d

/-- Days since 1970-01-01 of the civil date `y-m-d` (models the timestamp
computed by the ECMAScript `MakeDay`); standard era-based conversion. -/
def daysFromCivil (y m d : ℤ) : ℤ :=
  let y2 := if m ≤ 2 then y - 1 else y
  let era := y2.fdiv 400
  let yoe := y2 - era * 400
  let mp := (m + 9) % 12
  let doy := (153 * mp + 2).fdiv 5 + d - 1
  let doe := yoe * 365 + yoe.fdiv 4 - yoe.fdiv 100 + doy
  era * 146097 + doe - 719468

/-! ## Business-day distance (V2) -/

/-- `date-fns` `eachDayOfInterval` for `s ≤ e`: the list of all days in the
closed interval `[s, e]`, both endpoints included. -/
def eachDayOfInterval (s e : ℤ) : List ℤ :=
  (List.range ((e - s).toNat + 1)).map (fun (i : ℕ) => s + (i : ℤ))

/-- V2's `calculateBusinessDays`: 0 for identical endpoints, otherwise the
number of non-weekend days of the closed interval (the start day is NOT
excluded — `eachDayOfInterval` includes both endpoints). -/
def calculateBusinessDays (startDate endDate : ℤ) : ℤ :=
  if startDate = endDate then 0
  else ((eachDayOfInterval startDate endDate).filter (fun day => !isWeekend day)).length

/-- The signed distance assembled in V2's `updateDecorations`: order the two
dates, count business days, negate when the date precedes today. -/
def signedBusinessDiff (today dateDay : ℤ) : ℤ :=
  if dateDay < today then -(calculateBusinessDays dateDay today)
  else calculateBusinessDays today dateDay

/-- Spec-side count (for claim C2), written from the spec's words: the
number of non-weekend days in the closed interval from the earlier to the
later of (today, date). -/
def specBusinessCount (today dateDay : ℤ) : ℕ :=
  ((Finset.Icc (min today dateDay) (max today dateDay)).filter
    (fun d => isWeekend d = false)).card

/-! ## Fibonacci-boundary bucketing (V2) -/

/-- The constant `FIBONACCI_BOUNDARIES` of V2. -/
def FIBONACCI_BOUNDARIES : List ℤ := [1, 2, 3, 5, 8, 13, 21, 34, 55, 89]

/-- The constant `MAX_FIBONACCI_NUMBER = FIBONACCI_BOUNDARIES[length - 1]`. -/
def MAX_FIBONACCI_NUMBER : ℤ :=
  FIBONACCI_BOUNDARIES.getD (FIBONACCI_BOUNDARIES.length - 1) 0

/-- V2's `getFibonacciCategory`: 0 for past/today, the max boundary beyond
it, otherwise the first boundary `≤ diffDays` in the reversed (descending)
boundary list, defaulting to 1 (the `?? 1`). -/
def getFibonacciCategory (diffDays : ℤ) : ℤ :=
  if diffDays ≤ 0 then 0
  else if MAX_FIBONACCI_NUMBER < diffDays then MAX_FIBONACCI_NUMBER
  else ((FIBONACCI_BOUNDARIES.reverse.find? (fun boundary => decide (boundary ≤ diffDays))).getD 1)

/-- Spec-side description (for claim C5), written from the spec's words: the
largest threshold value not exceeding the distance. -/
def specLargestBoundaryLE (d : ℤ) : ℤ :=
  (FIBONACCI_BOUNDARIES.filter (fun b => decide (b ≤ d))).foldl max 0

/-- Spec-side category function for boundary mode (claim C5). -/
def specBoundaryCategory (d : ℤ) : ℤ :=
  if d ≤ 0 then 0
  else if MAX_FIBONACCI_NUMBER < d then MAX_FIBONACCI_NUMBER
  else specLargestBoundaryLE d

/-! ## Colour derivation -/

/-- JS `Math.round (num / den)` for `den > 0` (round half towards positive
infinity), computed exactly on integers:
`⌊num/den + 1/2⌋ = ⌊(2·num + den) / (2·den)⌋`.  Every JS float rounded in
this file is either exactly representable or far enough from a half-integer
tie that the double-precision result agrees with the exact rational one. -/
def jsRound (num den : ℤ) : ℤ := (2 * num + den).fdiv (2 * den)

/-- JS `Math.ceil (num / den)` for `den > 0`, computed exactly on
integers. -/
def jsCeil (num den : ℤ) : ℤ := (num + den - 1).fdiv den

namespace V1

/-- Red channel of V1's `calculateColor` for a future distance:
`Math.round(Math.max(0, 255 - (diffDays * 3 * 255 / 50)))`; the `max` of
reals is pushed through the common denominator 50. -/
def redChannel (diffDays : ℤ) : ℤ :=
  jsRound (max 0 (255 * 50 - diffDays * 3 * 255)) 50

/-- Blue channel of V1's `calculateColor` for a future distance:
`Math.round(Math.min(255, diffDays * 3 * 255 / 50))`; the `min` of reals is
pushed through the common denominator 50. -/
def blueChannel (diffDays : ℤ) : ℤ :=
  jsRound (min (255 * 50) (diffDays * 3 * 255)) 50

/-- V1's `calculateColor` on a valid (non-NaN) distance. -/
def calculateColor (diffDays : ℤ) : String :=
  if diffDays ≤ 0 then "rgb(255, 0, 0)"
  else if 50 ≤ diffDays then "rgb(0, 0, 255)"
  else "rgb(" ++ toString (redChannel diffDays) ++ ", 0, " ++
    toString (blueChannel diffDays) ++ ")"

end V1

namespace V2

/-- V2's `MAX_HUE`. -/
def MAX_HUE : ℤ := 210

/-- V2's `RED_HUE` (also the background of `pastDateDecorationType`). -/
def RED_HUE : String := "hsl(0, 100%, 50%)"

/-- V2's `BLUE_HUE`. -/
def BLUE_HUE : String := "hsl(210, 100%, 50%)"

/-- JS `Array.prototype.indexOf`: index of the element, `-1` if absent. -/
def jsIndexOf (l : List ℤ) (x : ℤ) : ℤ :=
  match l.findIdx? (fun b => b == x) with
  | some i => (i : ℤ)
  | none => -1

/-- Hue computed by V2's `calculateColor` for an intermediate category:
`Math.round((indexOf(category) + 1) / boundaries.length * MAX_HUE)`, the
real-valued `index / 10 * 210` written over the denominator 10. -/
def hueOf (fibonacciCategory : ℤ) : ℤ :=
  jsRound ((jsIndexOf FIBONACCI_BOUNDARIES fibonacciCategory + 1) * MAX_HUE)
    (FIBONACCI_BOUNDARIES.length : ℤ)

/-- V2's `calculateColor` on a Fibonacci category. -/
def calculateColor (fibonacciCategory : ℤ) : String :=
  if fibonacciCategory ≤ 0 then RED_HUE
  else if MAX_FIBONACCI_NUMBER ≤ fibonacciCategory then BLUE_HUE
  else "hsl(" ++ toString (hueOf fibonacciCategory) ++ ", 100%, 50%)"

end V2

/-! ## The decoration-type registry

Both variants share this logic: a module-level `pastDateDecorationType`
(here: handle 0, allocated at module load, before `activate`), a module
level `Map` from positive category to decoration type, and
`getOrCreateDecorationType` which returns the past handle for categories
≤ 0 and otherwise lazily allocates one handle per distinct category.
`deactivate` disposes the past handle, then every handle of the map (in map
iteration order), then clears the map.  Handles are embedded as naturals
allocated from a counter starting at 1. -/

structure RegState where
  /-- The `futureDecorationTypes` map, as an insertion-ordered assoc list
  from category to handle. -/
  future : List (ℤ × ℕ)
  /-- Next fresh handle produced by `createTextEditorDecorationType`. -/
  nextHandle : ℕ
  /-- Every handle allocated so far, in allocation order (handle 0 is the
  module-load `pastDateDecorationType`). -/
  created : List ℕ
  /-- Handles on which `dispose()` has been called, in call order. -/
  disposed : List ℕ
deriving DecidableEq, Repr

/-- The registry state right after module load: the past handle 0 exists,
the future map is empty, nothing is disposed. -/
def initRegState : RegState := ⟨[], 1, [0], []⟩

/-- `getOrCreateDecorationType`: past handle for category ≤ 0; otherwise
look the category up in the map, allocating and recording a fresh handle on
a miss.  Returns the handle and the new registry state. -/
def getOrCreateDecorationType (s : RegState) (category : ℤ) : ℕ × RegState :=
  if category ≤ 0 then (0, s)
  else
    match s.future.lookup category with
    | some h => (h, s)
    | none =>
        (s.nextHandle,
          { s with
            future := s.future ++ [(category, s.nextHandle)],
            nextHandle := s.nextHandle + 1,
            created := s.created ++ [s.nextHandle] })

/-- A session: the sequence of categories requested across all update
cycles, applied in order to the registry. -/
def runCalls (s : RegState) : List ℤ → RegState
  | [] => s
  | c :: cs => runCalls (getOrCreateDecorationType s c).2 cs

/-- `deactivate`: dispose the past handle, dispose every map entry in map
order, clear the map. -/
def regDeactivate (s : RegState) : RegState :=
  { s with
    future := [],
    disposed := s.disposed ++ 0 :: s.future.map (fun e => e.2) }

/-- Registry invariant tying the map content to the allocation log. -/
def RegInv (s : RegState) : Prop :=
  s.created = 0 :: s.future.map (fun e => e.2)
  ∧ s.created = List.range s.nextHandle
  ∧ (s.future.map (fun e => e.1)).Nodup
  ∧ (∀ e ∈ s.future, 0 < e.1)
  ∧ s.disposed = []
  ∧ 1 ≤ s.nextHandle

/-! ## The update scheduler

`activate` closes over a single `timeout` variable.  `triggerUpdate true`
(text change) cancels any armed timer and arms a fresh one;
`triggerUpdate false` (editor switch / initial pass) cancels any armed
timer and runs the pipeline synchronously; the registered refresh command
runs the pipeline synchronously WITHOUT touching the timer; a timer fires
only if it is still the armed one (a cancelled timer never fires).  Timers
are numbered so that cancellation is observable.  An active editor is
assumed present (otherwise every pipeline run is a no-op for both paths). -/

inductive SchedEvent where
  /-- `triggerUpdateDecorations(true)`: debounced request (document text
  changed); the two debounced requests of claim C6 are two such events with
  no intervening fire, i.e. within the quiet period. -/
  | change
  /-- `triggerUpdateDecorations(false)`: immediate request (editor switch,
  initial activation). -/
  | immediate
  /-- The `highlight-date.refreshHighlights` command body. -/
  | refresh
  /-- The armed `setTimeout` callback with identity `id` reaching its
  deadline. -/
  | fire (id : ℕ)
deriving DecidableEq, Repr

structure SchedState where
  /-- The `timeout` variable: the armed timer's identity, if any. -/
  timerId : Option ℕ
  /-- Fresh timer identities. -/
  nextTimer : ℕ
  /-- Number of completed `updateDecorations` pipeline executions. -/
  execs : ℕ
deriving DecidableEq, Repr

/-- Scheduler initial state: idle, nothing executed. -/
def schedInit : SchedState := ⟨none, 0, 0⟩

/-- One scheduler transition (see `SchedEvent`). -/
def schedStep (s : SchedState) : SchedEvent → SchedState
  | .change => { timerId := some s.nextTimer, nextTimer := s.nextTimer + 1, execs := s.execs }
  | .immediate => { timerId := none, nextTimer := s.nextTimer, execs := s.execs + 1 }
  | .refresh => { s with execs := s.execs + 1 }
  | .fire id =>
      if s.timerId = some id then { s with timerId := none, execs := s.execs + 1 }
      else s

/-- Run a sequence of scheduler events. -/
def schedRun (s : SchedState) : List SchedEvent → SchedState
  | [] => s
  | e :: es => schedRun (schedStep s e) es

/-! ## The extractor: regex scanning -/

/-- Character of the document at offset `i` (documents are total here; out
of range reads are guarded by the callers and default to a blank). -/
def chAt (t : List Char) (i : ℕ) : Char := t.getD i ' '

/-- JS regex word character `\w` = `[A-Za-z0-9_]`. -/
def isWordChar (c : Char) : Bool := c.isAlphanum || c == '_'

/-- JS regex whitespace `\s`, restricted to its ASCII part. -/
def isSpaceChar (c : Char) : Bool :=
  c == ' ' || c == '\t' || c == '\n' || c == '\r' || c == '\x0b' || c == '\x0c'

/-- The shape `\d{4}-\d{2}-\d{2}` starting at offset `p`. -/
def pattern10 (t : List Char) (p : ℕ) : Bool :=
  (chAt t p).isDigit && (chAt t (p+1)).isDigit && (chAt t (p+2)).isDigit &&
  (chAt t (p+3)).isDigit && (chAt t (p+4) == '-') && (chAt t (p+5)).isDigit &&
  (chAt t (p+6)).isDigit && (chAt t (p+7) == '-') && (chAt t (p+8)).isDigit &&
  (chAt t (p+9)).isDigit

/-- V1's regex `\b\d{4}-\d{2}-\d{2}\b` matches at offset `p`.  Since the
token starts and ends with a digit, `\b` holds exactly at the string edges
or next to a non-word character. -/
def matchAt1 (t : List Char) (p : ℕ) : Bool :=
  decide (p + 10 ≤ t.length) && pattern10 t p &&
  (p == 0 || !isWordChar (chAt t (p - 1))) &&
  (decide (t.length ≤ p + 10) || !isWordChar (chAt t (p + 10)))

/-- V2's regex `(?<=\s|^)\d{4}-\d{2}-\d{2}(?=\s|$)` matches at offset `p`. -/
def matchAt2 (t : List Char) (p : ℕ) : Bool :=
  decide (p + 10 ≤ t.length) && pattern10 t p &&
  (p == 0 || isSpaceChar (chAt t (p - 1))) &&
  (decide (t.length ≤ p + 10) || isSpaceChar (chAt t (p + 10)))

/-- The global (`/g`) exec loop: starting from offset `p`, try each offset
left to right; on a match, resume immediately after its end (offset + 10,
look-arounds consume nothing).  `fuel` bounds the recursion and is chosen
large enough by `scanPositions`. -/
def scanAux (len : ℕ) (accept : ℕ → Bool) : ℕ → ℕ → List ℕ
  | 0, _ => []
  | fuel + 1, p =>
      if len < p + 10 then []
      else if accept p then p :: scanAux len accept fuel (p + 10)
      else scanAux len accept fuel (p + 1)

/-- All match start offsets of the scan, in scan order. -/
def scanPositions (len : ℕ) (accept : ℕ → Bool) : List ℕ :=
  scanAux len accept (len + 1) 0

/-- V1 match offsets of a document. -/
def scanV1 (t : List Char) : List ℕ := scanPositions t.length (matchAt1 t)

/-- V2 match offsets of a document. -/
def scanV2 (t : List Char) : List ℕ := scanPositions t.length (matchAt2 t)

/-- Numeric value of a digit character. -/
def digitVal (c : Char) : ℕ := c.toNat - 48

/-- Year component of the token starting at offset `p`. -/
def tokenY (t : List Char) (p : ℕ) : ℕ :=
  1000 * digitVal (chAt t p) + 100 * digitVal (chAt t (p+1)) +
  10 * digitVal (chAt t (p+2)) + digitVal (chAt t (p+3))

/-- Month component of the token starting at offset `p`. -/
def tokenM (t : List Char) (p : ℕ) : ℕ :=
  10 * digitVal (chAt t (p+5)) + digitVal (chAt t (p+6))

/-- Day-of-month component of the token starting at offset `p`. -/
def tokenD (t : List Char) (p : ℕ) : ℕ :=
  10 * digitVal (chAt t (p+8)) + digitVal (chAt t (p+9))

/-! ## The two pipelines -/

/-- V1's per-match distance: `new Date(dateStr)` is midnight UTC of the
date (or Invalid Date, i.e. NaN = `none`); `today` is local midnight of the
civil day `today` in a zone `tzMin` minutes east of UTC; the distance is
`Math.ceil((date.getTime() - today.getTime()) / 86400000)`. -/
def diffDaysV1 (today tzMin : ℤ) (y m d : ℕ) : Option ℤ :=
  if newDateValid y m d then
    some (jsCeil
      (daysFromCivil y m d * 86400000 - (today * 86400000 - tzMin * 60000))
      86400000)
  else none

/-- V1's `updateDecorations` output: for every regex match, the map key
(the raw distance, NaN for an invalid date — no validity filter exists in
V1) together with the styled range `[match.index, match.index + 10)`. -/
def pipelineV1 (today tzMin : ℤ) (t : List Char) : List (Option ℤ × (ℕ × ℕ)) :=
  (scanV1 t).map (fun p =>
    (diffDaysV1 today tzMin (tokenY t p) (tokenM t p) (tokenD t p), (p, p + 10)))

/-- The civil day a V2 `Date` lands on: `new Date(dateStr)` is midnight UTC
of day `D`; `setHours(0,0,0,0)` moves it to local midnight of the LOCAL
civil day of that instant, i.e. `⌊(D·1440 + tzMin)/1440⌋`. -/
def v2DateDay (tzMin D : ℤ) : ℤ := (D * 1440 + tzMin).fdiv 1440

/-- V2's `updateDecorations` output: regex matches filtered by
`isValidDate`, each mapped to its Fibonacci category and the styled range
`[positionAt(p - 1), positionAt(p + 10 + 1))` — one character wider than
the token on both sides, clamped to the document. -/
def pipelineV2 (today tzMin : ℤ) (t : List Char) : List (ℤ × (ℕ × ℕ)) :=
  ((scanV2 t).filter (fun p => dateFnsValid (tokenY t p) (tokenM t p) (tokenD t p))).map
    (fun p =>
      (getFibonacciCategory (signedBusinessDiff today
          (v2DateDay tzMin (daysFromCivil (tokenY t p) (tokenM t p) (tokenD t p)))),
        (p - 1, min (p + 11) t.length)))

/-! # Theorems -/

/-- C5: In boundary (nonlinear) bucketing mode with thresholds
1,2,3,5,8,13,21,34,55,89, for every integer distance d: if d ≤ 0 the
category is 0; if d exceeds 89 the category is 89; otherwise the category is
the largest threshold value not exceeding d (which is what the descending
scan of `getFibonacciCategory` computes). -/
theorem C5_boundary_bucketing (d : ℤ) :
    getFibonacciCategory d = specBoundaryCategory d := by
  unfold getFibonacciCategory specBoundaryCategory
  by_cases h0 : d ≤ 0
  · simp [h0]
  · by_cases h89 : MAX_FIBONACCI_NUMBER < d
    · simp [h0, h89]
    · simp only [h0, h89, if_false]
      have h1 : 1 ≤ d := by omega
      have h2 : d ≤ 89 := by
        have : MAX_FIBONACCI_NUMBER = 89 := by decide
        omega
      interval_cases d <;> decide

/-! ## Registry lemmas -/

theorem lookup_eq_none_forall {l : List (ℤ × ℕ)} {k : ℤ} (h : l.lookup k = none) :
    ∀ e ∈ l, e.1 ≠ k := by
  induction l with
  | nil => simp
  | cons a as ih =>
      obtain ⟨k2, v⟩ := a
      cases hka : (k == k2) with
      | true => simp [List.lookup_cons, hka] at h
      | false =>
          intro e he
          rcases List.mem_cons.mp he with rfl | he2
          · have : ¬ k = k2 := by simpa using hka
            exact fun hh => this hh.symm
          · exact ih (by simpa [List.lookup_cons, hka] using h) e he2

theorem lookup_append_self {l : List (ℤ × ℕ)} {k : ℤ} (v : ℕ) (h : l.lookup k = none) :
    (l ++ [(k, v)]).lookup k = some v := by
  induction l with
  | nil => simp [List.lookup_cons]
  | cons a as ih =>
      obtain ⟨k2, v2⟩ := a
      cases hka : (k == k2) with
      | true => simp [List.lookup_cons, hka] at h
      | false =>
          simp only [List.cons_append, List.lookup_cons, hka]
          exact ih (by simpa [List.lookup_cons, hka] using h)

theorem mem_of_lookup_eq_some {l : List (ℤ × ℕ)} {k : ℤ} {v : ℕ}
    (h : l.lookup k = some v) : (k, v) ∈ l := by
  induction l with
  | nil => simp [List.lookup] at h
  | cons a as ih =>
      obtain ⟨k2, v2⟩ := a
      cases hka : (k == k2) with
      | true =>
          have hk : k = k2 := by simpa using hka
          have hv : v2 = v := by simpa [List.lookup_cons, hka] using h
          subst hk hv
          exact List.mem_cons_self _ _
      | false =>
          exact List.mem_cons_of_mem _ (ih (by simpa [List.lookup_cons, hka] using h))

theorem regInv_init : RegInv initRegState :=
  ⟨rfl, by decide, by simp [initRegState], by simp [initRegState], rfl, by decide⟩

theorem regInv_step {s : RegState} (hs : RegInv s) (c : ℤ) :
    RegInv (getOrCreateDecorationType s c).2 := by
  obtain ⟨h1, h2, h3, h4, h5, h6⟩ := hs
  unfold getOrCreateDecorationType
  by_cases hc : c ≤ 0
  · simpa [hc] using ⟨h1, h2, h3, h4, h5, h6⟩
  · simp only [hc, if_false]
    cases hl : s.future.lookup c with
    | some h => exact ⟨h1, h2, h3, h4, h5, h6⟩
    | none =>
        have hkeys : ∀ e ∈ s.future, e.1 ≠ c := lookup_eq_none_forall hl
        refine ⟨?_, ?_, ?_, ?_, h5, (by omega : 1 ≤ s.nextHandle + 1)⟩
        · simp only [List.map_append, List.map_cons, List.map_nil]
          rw [h1]
          simp
        · rw [h2]
          exact (List.range_succ s.nextHandle).symm
        · simp only [List.map_append, List.map_cons, List.map_nil]
          rw [List.nodup_append]
          refine ⟨h3, List.nodup_singleton _, ?_⟩
          intro a ha hb
          rcases List.mem_map.mp ha with ⟨e, he, rfl⟩
          rcases List.mem_singleton.mp hb with rfl
          exact hkeys e he rfl
        · intro e he
          rcases List.mem_append.mp he with he2 | he2
          · exact h4 e he2
          · rcases List.mem_singleton.mp he2 with rfl
            simpa using by omega

theorem regInv_runCalls (cs : List ℤ) : ∀ s : RegState, RegInv s → RegInv (runCalls s cs) := by
  induction cs with
  | nil => intro s hs; exact hs
  | cons c cs ih => intro s hs; exact ih _ (regInv_step hs c)

theorem regInv_values_nodup {s : RegState} (h : RegInv s) :
    (s.future.map (fun e => e.2)).Nodup := by
  obtain ⟨h1, h2, _, _, _, _⟩ := h
  have hcr : s.created.Nodup := h2 ▸ List.nodup_range _
  rw [h1] at hcr
  exact hcr.of_cons

theorem regInv_value_lt {s : RegState} (h : RegInv s) {e : ℤ × ℕ} (he : e ∈ s.future) :
    e.2 < s.nextHandle := by
  obtain ⟨h1, h2, _, _, _, _⟩ := h
  have hmem : e.2 ∈ s.created := by
    rw [h1]
    exact List.mem_cons_of_mem _ (List.mem_map_of_mem _ he)
  rw [h2] at hmem
  exact List.mem_range.mp hmem

theorem getOrCreate_mem {s : RegState} {c : ℤ} (hc : 0 < c) :
    (c, (getOrCreateDecorationType s c).1) ∈ (getOrCreateDecorationType s c).2.future := by
  unfold getOrCreateDecorationType
  simp only [show ¬ c ≤ 0 by omega, if_false]
  cases hl : s.future.lookup c with
  | some h => exact mem_of_lookup_eq_some hl
  | none => simp

theorem getOrCreate_lookup_self {s : RegState} {c : ℤ} (hc : 0 < c) :
    (getOrCreateDecorationType s c).2.future.lookup c
      = some (getOrCreateDecorationType s c).1 := by
  unfold getOrCreateDecorationType
  simp only [show ¬ c ≤ 0 by omega, if_false]
  cases hl : s.future.lookup c with
  | some h => exact hl
  | none => exact lookup_append_self _ hl

theorem getOrCreate_of_lookup_some {s : RegState} {c : ℤ} {h : ℕ} (hc : 0 < c)
    (hl : s.future.lookup c = some h) : getOrCreateDecorationType s c = (h, s) := by
  unfold getOrCreateDecorationType
  simp [show ¬ c ≤ 0 by omega, hl]

theorem getOrCreate_future_grow (s : RegState) (c : ℤ) :
    ∀ e ∈ s.future, e ∈ (getOrCreateDecorationType s c).2.future := by
  unfold getOrCreateDecorationType
  by_cases hc : c ≤ 0
  · simp [hc]
  · simp only [hc, if_false]
    cases hl : s.future.lookup c with
    | some h => exact fun e he => he
    | none => exact fun e he => List.mem_append_left _ he

/-- C7: `deactivate` releases every style handle created during the session
exactly once — the dispose sequence is exactly the allocation log (handle 0
from module load and one handle per distinct positive category ever
requested), with no duplicates — and leaves the future-decoration registry
empty afterwards. -/
theorem C7_teardown (cs : List ℤ) :
    (regDeactivate (runCalls initRegState cs)).disposed
      = (runCalls initRegState cs).created
    ∧ (regDeactivate (runCalls initRegState cs)).disposed.Nodup
    ∧ (regDeactivate (runCalls initRegState cs)).future = [] := by
  obtain ⟨h1, h2, h3, h4, h5, h6⟩ := regInv_runCalls cs initRegState regInv_init
  have hd : (regDeactivate (runCalls initRegState cs)).disposed
      = (runCalls initRegState cs).created := by
    simp [regDeactivate, h5, h1]
  refine ⟨hd, ?_, rfl⟩
  rw [hd, h2]
  exact List.nodup_range _

/-- C8: requesting a style handle for the same category twice — in any
session state — returns the same handle with no second allocation (the
state is unchanged by the second request); the registry holds at most one
handle per distinct category (its keys are duplicate-free), and normal
operation never removes entries from it. -/
theorem C8_handle_reuse (cs : List ℤ) (c : ℤ) :
    (getOrCreateDecorationType (getOrCreateDecorationType (runCalls initRegState cs) c).2 c).1
      = (getOrCreateDecorationType (runCalls initRegState cs) c).1
    ∧ (getOrCreateDecorationType (getOrCreateDecorationType (runCalls initRegState cs) c).2 c).2
      = (getOrCreateDecorationType (runCalls initRegState cs) c).2
    ∧ ((getOrCreateDecorationType (runCalls initRegState cs) c).2.future.map
        (fun e => e.1)).Nodup
    ∧ (∀ e ∈ (runCalls initRegState cs).future,
        e ∈ (getOrCreateDecorationType (runCalls initRegState cs) c).2.future) := by
  have hinv := regInv_runCalls cs initRegState regInv_init
  have hinv2 := regInv_step hinv c
  by_cases hc : c ≤ 0
  · simp only [getOrCreateDecorationType, hc, if_true]
    exact ⟨trivial, trivial, hinv.2.2.1, fun e he => he⟩
  · have hc2 : 0 < c := by omega
    have hsecond := getOrCreate_of_lookup_some hc2 (getOrCreate_lookup_self (s := runCalls initRegState cs) hc2)
    refine ⟨?_, ?_, hinv2.2.2.1, getOrCreate_future_grow _ c⟩
    · rw [hsecond]
    · rw [hsecond]

/-- C10 (implicit): every non-positive category is styled through the single
handle 0 allocated at module load (`initRegState` starts with it already
created, before `activate` ever runs): the lookup never stores a key ≤ 0 in
the future-handle map; `deactivate` disposes handle 0, and a request after
deactivation still returns handle 0 unchanged — the already-disposed handle
is reused, never recreated. -/
theorem C10_past_handle (cs : List ℤ) (c : ℤ) (hc : c ≤ 0) :
    (getOrCreateDecorationType (runCalls initRegState cs) c).1 = 0
    ∧ (getOrCreateDecorationType (runCalls initRegState cs) c).2 = runCalls initRegState cs
    ∧ (∀ e ∈ (runCalls initRegState cs).future, 0 < e.1)
    ∧ 0 ∈ (regDeactivate (runCalls initRegState cs)).disposed
    ∧ getOrCreateDecorationType (regDeactivate (runCalls initRegState cs)) c
        = (0, regDeactivate (runCalls initRegState cs)) := by
  have hinv := regInv_runCalls cs initRegState regInv_init
  refine ⟨?_, ?_, hinv.2.2.2.1, ?_, ?_⟩
  · simp [getOrCreateDecorationType, hc]
  · simp [getOrCreateDecorationType, hc]
  · simp [regDeactivate, hinv.2.2.2.2.1]
  · simp [getOrCreateDecorationType, hc]

/-- Closed witness for C10, at the session `[1]` and category `0`. -/
theorem C10_witness :
    (getOrCreateDecorationType (runCalls initRegState [1]) 0).1 = 0
    ∧ 0 ∈ (regDeactivate (runCalls initRegState [1])).disposed :=
  ⟨(C10_past_handle [1] 0 (by decide)).1, (C10_past_handle [1] 0 (by decide)).2.2.2.1⟩

/-- C4 counterexample: in the linear variant V1 the distances 50 and 51 do
NOT share a category — requesting a decoration type for distance 51 after
one exists for 50 allocates a second, different handle (handle 2 vs handle
1), even though both distances receive the capped colour. -/
theorem C4_cex :
    (getOrCreateDecorationType (getOrCreateDecorationType initRegState 50).2 51).1 = 2
    ∧ (getOrCreateDecorationType initRegState 50).1 = 1
    ∧ ((2 : ℕ) ≠ 1)
    ∧ V1.calculateColor 51 = V1.calculateColor 50 := by
  refine ⟨rfl, rfl, by decide, rfl⟩

/-- C4 as amended: in linear mode the category IS the raw signed calendar
day distance.  Distances ≤ 0 all collapse onto the single past handle (and
the fixed red colour); distances above the cap 50 do NOT collapse to the
cap — every pair of distinct positive distances gets distinct handles, so
the category set is unbounded — and only the derived colour collapses to
the blue endpoint for distances ≥ 50. -/
theorem C4_amended (cs : List ℤ) (d d1 d2 : ℤ) :
    (d ≤ 0 → getOrCreateDecorationType (runCalls initRegState cs) d
        = (0, runCalls initRegState cs))
    ∧ (0 < d1 → 0 < d2 → d1 ≠ d2 →
        (getOrCreateDecorationType
            (getOrCreateDecorationType (runCalls initRegState cs) d1).2 d2).1
          ≠ (getOrCreateDecorationType (runCalls initRegState cs) d1).1)
    ∧ (50 ≤ d → V1.calculateColor d = "rgb(0, 0, 255)")
    ∧ (d ≤ 0 → V1.calculateColor d = "rgb(255, 0, 0)") := by
  have hinv := regInv_runCalls cs initRegState regInv_init
  refine ⟨?_, ?_, ?_, ?_⟩
  · intro hd
    simp [getOrCreateDecorationType, hd]
  · intro hd1 hd2 hne
    have hinv1 := regInv_step hinv d1
    have hmem1 : (d1, (getOrCreateDecorationType (runCalls initRegState cs) d1).1)
        ∈ (getOrCreateDecorationType (runCalls initRegState cs) d1).2.future :=
      getOrCreate_mem hd1
    set s1 := (getOrCreateDecorationType (runCalls initRegState cs) d1).2 with hs1
    set h1 := (getOrCreateDecorationType (runCalls initRegState cs) d1).1 with hh1
    unfold getOrCreateDecorationType
    simp only [show ¬ d2 ≤ 0 by omega, if_false]
    cases hl : s1.future.lookup d2 with
    | some h =>
        simp only []
        intro heq
        have hmem2 : (d2, h) ∈ s1.future := mem_of_lookup_eq_some hl
        have := List.inj_on_of_nodup_map (regInv_values_nodup hinv1) hmem2 hmem1 heq
        exact hne (congrArg Prod.fst this).symm
    | none =>
        simp only []
        have := regInv_value_lt hinv1 hmem1
        omega
  · intro hd
    simp [V1.calculateColor, show ¬ d ≤ 0 by omega, hd]
  · intro hd
    simp [V1.calculateColor, hd]

/-- Closed witness for C4 as amended: at the empty session, distance −2
reuses the past handle, and distances 50 and 51 receive distinct handles
while sharing the capped colour. -/
theorem C4_witness :
    getOrCreateDecorationType (runCalls initRegState []) (-2)
        = (0, runCalls initRegState [])
    ∧ (getOrCreateDecorationType
          (getOrCreateDecorationType (runCalls initRegState []) 50).2 51).1
        ≠ (getOrCreateDecorationType (runCalls initRegState []) 50).1
    ∧ V1.calculateColor 51 = "rgb(0, 0, 255)" :=
  ⟨(C4_amended [] (-2) 50 51).1 (by decide),
   (C4_amended [] (-2) 50 51).2.1 (by decide) (by decide) (by decide),
   (C4_amended [] 51 50 51).2.2.1 (by decide)⟩

/-- C6 counterexample: the refresh command (`highlight-date.refreshHighlights`)
runs the pipeline synchronously but does NOT cancel a pending debounce
timer: after a debounced request armed timer 0, one refresh leaves timer 0
still pending, and its later firing yields a second pipeline execution. -/
theorem C6_cex :
    (schedStep (schedStep schedInit .change) .refresh).timerId = some 0
    ∧ ¬ (schedStep (schedStep schedInit .change) .refresh).timerId = none
    ∧ (schedStep (schedStep (schedStep schedInit .change) .refresh) (.fire 0)).execs = 2 := by
  decide

/-- C6 as amended: two debounced requests within the quiet period produce
exactly one pipeline execution — the second request cancels the first's
armed timer (firing the first timer is a no-op, firing the second adds
exactly one execution); `triggerUpdateDecorations(false)` runs the pipeline
synchronously and cancels any pending timer, so no timer survives it; but
the manual refresh command runs the pipeline synchronously WITHOUT
cancelling, leaving any pending timer armed. -/
theorem C6_amended (s : SchedState) :
    (schedStep (schedStep s .change) .change).timerId = some (s.nextTimer + 1)
    ∧ schedStep (schedStep (schedStep s .change) .change) (.fire s.nextTimer)
        = schedStep (schedStep s .change) .change
    ∧ (schedStep (schedStep (schedStep s .change) .change) (.fire (s.nextTimer + 1))).execs
        = s.execs + 1
    ∧ (schedStep s .immediate).execs = s.execs + 1
    ∧ (schedStep s .immediate).timerId = none
    ∧ (schedStep s .refresh).execs = s.execs + 1
    ∧ (schedStep s .refresh).timerId = s.timerId := by
  refine ⟨rfl, ?_, ?_, rfl, rfl, rfl, rfl⟩
  · simp [schedStep]
  · simp [schedStep]

/-! ## Business-day lemmas -/

theorem isWeekend_iff (d : ℤ) :
    isWeekend d = true ↔ ((d + 4) % 7 = 0 ∨ (d + 4) % 7 = 6) := by
  simp [isWeekend, dayOfWeek]

theorem isWeekend_eq_false_iff (d : ℤ) :
    isWeekend d = false ↔ ¬ ((d + 4) % 7 = 0 ∨ (d + 4) % 7 = 6) := by
  rw [← isWeekend_iff]
  cases isWeekend d <;> simp

theorem Icc_insert_int (a b : ℤ) (h : a ≤ b + 1) :
    Finset.Icc a (b + 1) = insert (b + 1) (Finset.Icc a b) := by
  ext x
  simp only [Finset.mem_Icc, Finset.mem_insert]
  omega

theorem businessCount_eq (n : ℕ) : ∀ s : ℤ,
    (((List.range (n + 1)).map (fun (i : ℕ) => s + (i : ℤ))).filter
        (fun day => !isWeekend day)).length
      = ((Finset.Icc s (s + (n : ℤ))).filter (fun d => isWeekend d = false)).card := by
  induction n with
  | zero =>
      intro s
      by_cases hw : isWeekend s
      · rw [show List.range 1 = [0] from rfl]
        simp [List.filter_cons, Finset.filter_singleton, hw]
      · rw [show List.range 1 = [0] from rfl]
        simp [List.filter_cons, Finset.filter_singleton, hw]
  | succ n ih =>
      intro s
      rw [List.range_succ, List.map_append, List.filter_append, List.length_append]
      rw [show ((n + 1 : ℕ) : ℤ) = (n : ℤ) + 1 from by push_cast; ring]
      rw [show s + ((n : ℤ) + 1) = (s + (n : ℤ)) + 1 from by ring]
      rw [Icc_insert_int _ _ (by omega), Finset.filter_insert]
      by_cases hw : isWeekend (s + ((n : ℤ) + 1))
      · have hw2 : isWeekend ((s + (n : ℤ)) + 1) = true := by
          rw [show (s + (n : ℤ)) + 1 = s + ((n : ℤ) + 1) from by ring]
          exact hw
        rw [if_neg (by simp [hw2])]
        have : (([s + ((n + 1 : ℕ) : ℤ)].filter (fun day => !isWeekend day)).length) = 0 := by
          simp only [List.filter_cons, List.filter_nil]
          rw [show ((n + 1 : ℕ) : ℤ) = (n : ℤ) + 1 from by push_cast; ring]
          simp [hw]
        rw [List.map_cons, List.map_nil, this, ih s]
        omega
      · have hw2 : isWeekend ((s + (n : ℤ)) + 1) = false := by
          rw [show (s + (n : ℤ)) + 1 = s + ((n : ℤ) + 1) from by ring]
          simpa using hw
        rw [if_pos (by simp [hw2])]
        rw [Finset.card_insert_of_not_mem (by
          intro hmem
          have := Finset.mem_Icc.mp (Finset.mem_filter.mp hmem).1
          omega)]
        have : (([s + ((n + 1 : ℕ) : ℤ)].filter (fun day => !isWeekend day)).length) = 1 := by
          simp only [List.filter_cons, List.filter_nil]
          rw [show ((n + 1 : ℕ) : ℤ) = (n : ℤ) + 1 from by push_cast; ring]
          simp [hw]
        rw [List.map_cons, List.map_nil, this, ih s]

theorem calcBusinessDays_lt {s e : ℤ} (h : s < e) :
    calculateBusinessDays s e
      = (((Finset.Icc s e).filter (fun d => isWeekend d = false)).card : ℤ) := by
  have hc := businessCount_eq (e - s).toNat s
  rw [show s + (((e - s).toNat : ℕ) : ℤ) = e from by omega] at hc
  unfold calculateBusinessDays eachDayOfInterval
  rw [if_neg (by omega)]
  exact_mod_cast hc

theorem calcBusinessDays_nonneg (s e : ℤ) : 0 ≤ calculateBusinessDays s e := by
  unfold calculateBusinessDays
  split
  · omega
  · exact Int.natCast_nonneg _

/-- C2 counterexample: day 1 (1970-01-02) is a Friday and day 4 (1970-01-05)
is the following Monday, yet the business-day distance computed by the code
is 2, not 1 — `eachDayOfInterval` includes the start day, which the claim
says is excluded. -/
theorem C2_cex :
    dayOfWeek 1 = 5 ∧ dayOfWeek 4 = 1
    ∧ signedBusinessDiff 1 4 = 2 ∧ signedBusinessDiff 1 4 ≠ 1 := by
  refine ⟨by decide, by decide, by decide, by decide⟩

/-- C2 as amended: in business-day mode, if the two dates are equal the
distance is 0; otherwise its magnitude counts the non-weekend days in the
closed interval from the earlier to the later date INCLUDING the start day;
the sign is negative exactly when the validated date precedes today and the
interval contains at least one non-weekend day; in particular the distance
from a Friday to the following Monday is 2 (Friday and Monday both count,
the weekend is excluded). -/
theorem C2_amended (today dateDay : ℤ) :
    (dateDay = today → signedBusinessDiff today dateDay = 0)
    ∧ (dateDay ≠ today →
        (signedBusinessDiff today dateDay).natAbs = specBusinessCount today dateDay)
    ∧ (signedBusinessDiff today dateDay < 0
        ↔ dateDay < today ∧ 0 < specBusinessCount today dateDay)
    ∧ (dayOfWeek today = 5 → dateDay = today + 3 →
        signedBusinessDiff today dateDay = 2 ∧ dayOfWeek dateDay = 1) := by
  refine ⟨?_, ?_, ?_, ?_⟩
  · intro h
    subst h
    simp [signedBusinessDiff, calculateBusinessDays]
  · intro hne
    unfold signedBusinessDiff specBusinessCount
    rcases lt_trichotomy dateDay today with hlt | heq | hgt
    · rw [if_pos hlt, calcBusinessDays_lt hlt,
        min_eq_right (le_of_lt hlt), max_eq_left (le_of_lt hlt)]
      simp
    · exact absurd heq hne
    · rw [if_neg (by omega), calcBusinessDays_lt hgt,
        min_eq_left (le_of_lt hgt), max_eq_right (le_of_lt hgt)]
      simp
  · constructor
    · intro hneg
      by_cases hlt : dateDay < today
      · refine ⟨hlt, ?_⟩
        unfold signedBusinessDiff at hneg
        rw [if_pos hlt, calcBusinessDays_lt hlt] at hneg
        unfold specBusinessCount
        rw [min_eq_right (le_of_lt hlt), max_eq_left (le_of_lt hlt)]
        omega
      · exfalso
        unfold signedBusinessDiff at hneg
        rw [if_neg hlt] at hneg
        have := calcBusinessDays_nonneg today dateDay
        omega
    · rintro ⟨hlt, hcard⟩
      unfold signedBusinessDiff
      rw [if_pos hlt, calcBusinessDays_lt hlt]
      unfold specBusinessCount at hcard
      rw [min_eq_right (le_of_lt hlt), max_eq_left (le_of_lt hlt)] at hcard
      omega
  · intro h5 h3
    subst h3
    refine ⟨?_, ?_⟩
    · unfold signedBusinessDiff
      rw [if_neg (by omega)]
      unfold calculateBusinessDays
      rw [if_neg (by omega)]
      unfold eachDayOfInterval
      rw [show (today + 3 - today).toNat = 3 from by omega]
      rw [show List.range (3 + 1) = [0, 1, 2, 3] from rfl]
      have h5u : (today + 4) % 7 = 5 := h5
      have hw0 : isWeekend (today + ((0 : ℕ) : ℤ)) = false :=
        (isWeekend_eq_false_iff _).mpr (by push_cast; omega)
      have hw1 : isWeekend (today + ((1 : ℕ) : ℤ)) = true :=
        (isWeekend_iff _).mpr (by push_cast; omega)
      have hw2 : isWeekend (today + ((2 : ℕ) : ℤ)) = true :=
        (isWeekend_iff _).mpr (by push_cast; omega)
      have hw3 : isWeekend (today + ((3 : ℕ) : ℤ)) = false :=
        (isWeekend_eq_false_iff _).mpr (by push_cast; omega)
      simp only [List.map_cons, List.map_nil, List.filter_cons, List.filter_nil,
        hw0, hw1, hw2, hw3]
      simp
    · unfold dayOfWeek at h5 ⊢
      omega

/-- Closed witness for C2 as amended, at today = day 1 (a Friday) and
date = day 4 (the following Monday). -/
theorem C2_witness :
    signedBusinessDiff 1 1 = 0
    ∧ (signedBusinessDiff 1 4).natAbs = specBusinessCount 1 4
    ∧ (signedBusinessDiff 1 4 = 2 ∧ dayOfWeek 4 = 1) :=
  ⟨(C2_amended 1 1).1 rfl,
   (C2_amended 1 4).2.1 (by decide),
   (C2_amended 1 4).2.2.2 (by decide) (by decide)⟩

/-! ## Colour lemmas -/

theorem jsRound_mono {a b : ℤ} (den : ℤ) (hden : 0 < den) (h : a ≤ b) :
    jsRound a den ≤ jsRound b den := by
  unfold jsRound
  rw [Int.fdiv_eq_ediv _ (by omega), Int.fdiv_eq_ediv _ (by omega)]
  exact Int.ediv_le_ediv (by omega) (by omega)

/-- C9 counterexample: in the linear variant the colour ramp saturates well
before the cap — `diffDays · 3 · 255 / 50` exceeds 255 from distance 17 on —
so the intermediate categories 17 and 18 (and the cap 50) all receive the
identical colour `rgb(0, 0, 255)`, refuting "for every pair of intermediate
categories c1 < c2 the derived colors differ". -/
theorem C9_cex :
    V1.calculateColor 17 = V1.calculateColor 18
    ∧ V1.calculateColor 17 = V1.calculateColor 50
    ∧ ((0 : ℤ) < 17 ∧ (17 : ℤ) < 18 ∧ (18 : ℤ) < 50) := by
  refine ⟨by decide, by decide, by decide⟩

/-- C9 as amended: both colour functions are deterministic functions of the
category; every category ≤ 0 receives the fixed past-endpoint colour and the
cap/max category the other fixed endpoint; in the Fibonacci variant the
intermediate hues are strictly increasing (all ten categories get pairwise
distinct colours); in the linear variant the channels vary monotonically
(red non-increasing, blue non-decreasing) but NOT injectively: every
distance ≥ 17 already receives the endpoint colour `rgb(0, 0, 255)`, so the
intermediate categories 17..49 are mutually indistinguishable. -/
theorem C9_amended (c d1 d2 : ℤ) :
    (c ≤ 0 → V2.calculateColor c = V2.RED_HUE)
    ∧ (89 ≤ c → V2.calculateColor c = V2.BLUE_HUE)
    ∧ ([1, 2, 3, 5, 8, 13, 21, 34, 55].map V2.hueOf)
        = [21, 42, 63, 84, 105, 126, 147, 168, 189]
    ∧ List.Chain' (· < ·) ([1, 2, 3, 5, 8, 13, 21, 34, 55].map V2.hueOf)
    ∧ ([1, 2, 3, 5, 8, 13, 21, 34, 55, 89].map V2.calculateColor).Nodup
    ∧ (c ≤ 0 → V1.calculateColor c = "rgb(255, 0, 0)")
    ∧ (17 ≤ c → V1.calculateColor c = "rgb(0, 0, 255)")
    ∧ (d1 ≤ d2 →
        V1.redChannel d2 ≤ V1.redChannel d1 ∧ V1.blueChannel d1 ≤ V1.blueChannel d2) := by
  refine ⟨?_, ?_, by decide, by
      rw [show ([1, 2, 3, 5, 8, 13, 21, 34, 55].map V2.hueOf)
          = [21, 42, 63, 84, 105, 126, 147, 168, 189] from by decide]
      norm_num [List.chain'_cons], by decide, ?_, ?_, ?_⟩
  · intro hc
    simp [V2.calculateColor, hc]
  · intro hc
    have hmax : MAX_FIBONACCI_NUMBER = 89 := by decide
    simp [V2.calculateColor, show ¬ c ≤ 0 by omega, hmax, hc]
  · intro hc
    simp [V1.calculateColor, hc]
  · intro hc
    by_cases h50 : 50 ≤ c
    · simp [V1.calculateColor, show ¬ c ≤ 0 by omega, h50]
    · have hr : V1.redChannel c = 0 := by
        unfold V1.redChannel
        rw [max_eq_left (by omega : 255 * 50 - c * 3 * 255 ≤ 0)]
        decide
      have hb : V1.blueChannel c = 255 := by
        unfold V1.blueChannel
        rw [min_eq_left (by omega : (255 * 50 : ℤ) ≤ c * 3 * 255)]
        decide
      unfold V1.calculateColor
      rw [if_neg (by omega), if_neg h50, hr, hb]
      decide
  · intro h12
    constructor
    · exact jsRound_mono 50 (by omega)
        (max_le_max (le_refl 0) (by omega : 255 * 50 - d2 * 3 * 255 ≤ 255 * 50 - d1 * 3 * 255))
    · exact jsRound_mono 50 (by omega)
        (min_le_min (le_refl (255 * 50)) (by omega : d1 * 3 * 255 ≤ d2 * 3 * 255))

/-- Closed witness for C9 as amended, at categories 89, −1 and the pair
(1, 2). -/
theorem C9_witness :
    V2.calculateColor 89 = V2.BLUE_HUE
    ∧ V1.calculateColor (-1) = "rgb(255, 0, 0)"
    ∧ V1.calculateColor 20 = "rgb(0, 0, 255)"
    ∧ (V1.redChannel 2 ≤ V1.redChannel 1 ∧ V1.blueChannel 1 ≤ V1.blueChannel 2) :=
  ⟨(C9_amended 89 1 2).2.1 (by decide),
   (C9_amended (-1) 1 2).2.2.2.2.2.1 (by decide),
   (C9_amended 20 1 2).2.2.2.2.2.2.1 (by decide),
   (C9_amended 89 1 2).2.2.2.2.2.2.2 (by decide)⟩

/-! ## Scanner lemmas -/

theorem scanAux_sound (len : ℕ) (accept : ℕ → Bool) :
    ∀ fuel p q : ℕ, q ∈ scanAux len accept fuel p →
      p ≤ q ∧ accept q = true ∧ q + 10 ≤ len := by
  intro fuel
  induction fuel with
  | zero => intro p q hq; simp [scanAux] at hq
  | succ fuel ih =>
      intro p q hq
      simp only [scanAux] at hq
      by_cases hg : len < p + 10
      · rw [if_pos hg] at hq; simp at hq
      · rw [if_neg hg] at hq
        by_cases ha : accept p
        · rw [if_pos ha] at hq
          rcases List.mem_cons.mp hq with rfl | hq2
          · exact ⟨le_refl _, ha, by omega⟩
          · obtain ⟨h1, h2, h3⟩ := ih _ _ hq2
            exact ⟨by omega, h2, h3⟩
        · rw [if_neg ha] at hq
          obtain ⟨h1, h2, h3⟩ := ih _ _ hq
          exact ⟨by omega, h2, h3⟩

theorem scanAux_sorted (len : ℕ) (accept : ℕ → Bool) :
    ∀ fuel p : ℕ, (scanAux len accept fuel p).Pairwise (· < ·) := by
  intro fuel
  induction fuel with
  | zero => intro p; simp [scanAux]
  | succ fuel ih =>
      intro p
      simp only [scanAux]
      by_cases hg : len < p + 10
      · simp [hg]
      · rw [if_neg hg]
        by_cases ha : accept p
        · rw [if_pos ha]
          refine List.pairwise_cons.mpr ⟨?_, ih _⟩
          intro q hq
          have := (scanAux_sound len accept fuel (p + 10) q hq).1
          omega
        · rw [if_neg ha]
          exact ih _

theorem scanAux_complete (len : ℕ) (accept : ℕ → Bool)
    (hov : ∀ p q : ℕ, accept p = true → accept q = true → p < q → q < p + 10 → False) :
    ∀ fuel p q : ℕ, len < p + fuel → p ≤ q → accept q = true → q + 10 ≤ len →
      q ∈ scanAux len accept fuel p := by
  intro fuel
  induction fuel with
  | zero => intro p q h1 h2 h3 h4; omega
  | succ fuel ih =>
      intro p q h1 h2 h3 h4
      simp only [scanAux]
      by_cases hg : len < p + 10
      · exact absurd h4 (by omega)
      · rw [if_neg hg]
        by_cases ha : accept p
        · rw [if_pos ha]
          rcases eq_or_lt_of_le h2 with rfl | hlt
          · exact List.mem_cons_self _ _
          · have hge : p + 10 ≤ q := by
              by_contra hcon
              exact hov p q ha h3 hlt (by omega)
            exact List.mem_cons_of_mem _ (ih (p + 10) q (by omega) hge h3 h4)
        · rw [if_neg ha]
          have hne : p ≠ q := fun h => by rw [h] at ha; exact ha h3
          exact ih (p + 1) q (by omega) (by omega) h3 h4

theorem pattern10_parts {t : List Char} {p : ℕ} (h : pattern10 t p = true) :
    (∀ j, p ≤ j → j ≤ p + 3 → (chAt t j).isDigit = true)
    ∧ chAt t (p + 4) = '-' ∧ chAt t (p + 7) = '-'
    ∧ (chAt t (p + 8)).isDigit = true ∧ (chAt t (p + 9)).isDigit = true := by
  simp only [pattern10, Bool.and_eq_true, beq_iff_eq] at h
  obtain ⟨⟨⟨⟨⟨⟨⟨⟨⟨h0, h1⟩, h2⟩, h3⟩, h4⟩, h5⟩, h6⟩, h7⟩, h8⟩, h9⟩ := h
  refine ⟨?_, h4, h7, h8, h9⟩
  intro j hj1 hj2
  have : j = p ∨ j = p + 1 ∨ j = p + 2 ∨ j = p + 3 := by omega
  rcases this with rfl | rfl | rfl | rfl <;> assumption

theorem isWordChar_of_isDigit {c : Char} (h : c.isDigit = true) :
    isWordChar c = true := by
  simp [isWordChar, Char.isAlphanum, h]

theorem not_space_of_digit {c : Char} (h : c.isDigit = true) :
    isSpaceChar c = false := by
  cases hc : isSpaceChar c
  · rfl
  · exfalso
    unfold isSpaceChar at hc
    simp only [Bool.or_eq_true, beq_iff_eq] at hc
    rcases hc with ((((h1 | h1) | h1) | h1) | h1) | h1 <;>
      (subst h1; exact absurd h (by decide))

theorem no_overlap1 (t : List Char) (p q : ℕ) (hp : matchAt1 t p = true)
    (hq : matchAt1 t q = true) (hpq : p < q) (hq10 : q < p + 10) : False := by
  simp only [matchAt1, Bool.and_eq_true, decide_eq_true_eq, Bool.or_eq_true,
    beq_iff_eq, Bool.not_eq_true'] at hp hq
  obtain ⟨⟨⟨hplen, hppat⟩, hppre⟩, hppost⟩ := hp
  obtain ⟨⟨⟨hqlen, hqpat⟩, hqpre⟩, hqpost⟩ := hq
  obtain ⟨pdig, pd4, pd7, pd8, pd9⟩ := pattern10_parts hppat
  obtain ⟨qdig, qd4, qd7, qd8, qd9⟩ := pattern10_parts hqpat
  by_cases h4in : q ≤ p + 4 ∧ p + 4 ≤ q + 3
  · have hd := qdig (p + 4) (by omega) (by omega)
    rw [pd4] at hd
    exact absurd hd (by decide)
  · by_cases h7in : q ≤ p + 7 ∧ p + 7 ≤ q + 3
    · have hd := qdig (p + 7) (by omega) (by omega)
      rw [pd7] at hd
      exact absurd hd (by decide)
    · have hcase : q = p + 8 ∨ q = p + 9 := by omega
      rcases hcase with rfl | rfl
      · have hd : (chAt t (p + 10)).isDigit = true := qdig (p + 10) (by omega) (by omega)
        rcases hppost with hlen | hw
        · omega
        · rw [isWordChar_of_isDigit hd] at hw
          exact absurd hw (by decide)
      · rcases hqpre with h0 | hw
        · omega
        · rw [show p + 9 - 1 = p + 8 from by omega, isWordChar_of_isDigit pd8] at hw
          exact absurd hw (by decide)

theorem no_overlap2 (t : List Char) (p q : ℕ) (hp : matchAt2 t p = true)
    (hq : matchAt2 t q = true) (hpq : p < q) (hq10 : q < p + 10) : False := by
  simp only [matchAt2, Bool.and_eq_true, decide_eq_true_eq, Bool.or_eq_true,
    beq_iff_eq] at hp hq
  obtain ⟨⟨⟨hplen, hppat⟩, hppre⟩, hppost⟩ := hp
  obtain ⟨⟨⟨hqlen, hqpat⟩, hqpre⟩, hqpost⟩ := hq
  obtain ⟨pdig, pd4, pd7, pd8, pd9⟩ := pattern10_parts hppat
  obtain ⟨qdig, qd4, qd7, qd8, qd9⟩ := pattern10_parts hqpat
  by_cases h4in : q ≤ p + 4 ∧ p + 4 ≤ q + 3
  · have hd := qdig (p + 4) (by omega) (by omega)
    rw [pd4] at hd
    exact absurd hd (by decide)
  · by_cases h7in : q ≤ p + 7 ∧ p + 7 ≤ q + 3
    · have hd := qdig (p + 7) (by omega) (by omega)
      rw [pd7] at hd
      exact absurd hd (by decide)
    · have hcase : q = p + 8 ∨ q = p + 9 := by omega
      rcases hcase with rfl | rfl
      · rcases hqpre with h0 | hs
        · omega
        · rw [show p + 8 - 1 = p + 7 from by omega, pd7] at hs
          exact absurd hs (by decide)
      · rcases hqpre with h0 | hs
        · omega
        · rw [show p + 9 - 1 = p + 8 from by omega, not_space_of_digit pd8] at hs
          exact absurd hs (by decide)

theorem matchAt1_len {t : List Char} {q : ℕ} (h : matchAt1 t q = true) :
    q + 10 ≤ t.length := by
  simp only [matchAt1, Bool.and_eq_true, decide_eq_true_eq] at h
  exact h.1.1.1

theorem matchAt2_len {t : List Char} {q : ℕ} (h : matchAt2 t q = true) :
    q + 10 ≤ t.length := by
  simp only [matchAt2, Bool.and_eq_true, decide_eq_true_eq] at h
  exact h.1.1.1

/-- C3 counterexample: on the document `" 2024-01-15 "` (length 12) the V2
variant matches the valid token at offset 1 but styles the range
`[positionAt(0), positionAt(12))` — one character beyond the token on each
side — instead of the token's own range `[1, 11)`. -/
theorem C3_cex :
    (pipelineV2 19737 0 (" 2024-01-15 ".toList)).map (fun r => r.2) = [(0, 12)]
    ∧ ((0, 12) : ℕ × ℕ) ≠ (1, 11) :=
  ⟨rfl, by decide⟩

/-- C3 as amended: in both variants the scan is sound (every reported
offset carries an appropriately flanked structural `yyyy-MM-dd` token that
fits in the document), complete (every appropriately flanked token offset
is reported — in V2, valid tokens additionally survive the validity
filter), and the offsets are strictly increasing left to right.  The V1
styled range is exactly the token range `[p, p+10)`; the V2 styled range is
the token range widened by one character on each side and clamped to the
document: `[p-1, min (p+11) len)`. -/
theorem C3_amended (t : List Char) :
    (scanV1 t).Pairwise (· < ·)
    ∧ (∀ p ∈ scanV1 t, matchAt1 t p = true)
    ∧ (∀ q, matchAt1 t q = true → q ∈ scanV1 t)
    ∧ (scanV2 t).Pairwise (· < ·)
    ∧ (∀ p ∈ scanV2 t, matchAt2 t p = true)
    ∧ (∀ q, matchAt2 t q = true → q ∈ scanV2 t)
    ∧ (∀ today tzMin : ℤ, (pipelineV1 today tzMin t).map (fun r => r.2)
        = (scanV1 t).map (fun p => (p, p + 10)))
    ∧ (∀ today tzMin : ℤ, (pipelineV2 today tzMin t).map (fun r => r.2)
        = ((scanV2 t).filter
            (fun p => dateFnsValid (tokenY t p) (tokenM t p) (tokenD t p))).map
              (fun p => (p - 1, min (p + 11) t.length))) := by
  refine ⟨?_, ?_, ?_, ?_, ?_, ?_, ?_, ?_⟩
  · exact scanAux_sorted _ _ _ _
  · intro p hp
    exact (scanAux_sound _ _ _ _ _ hp).2.1
  · intro q hq
    exact scanAux_complete t.length (matchAt1 t) (no_overlap1 t) (t.length + 1) 0 q
      (by omega) (by omega) hq (matchAt1_len hq)
  · exact scanAux_sorted _ _ _ _
  · intro p hp
    exact (scanAux_sound _ _ _ _ _ hp).2.1
  · intro q hq
    exact scanAux_complete t.length (matchAt2 t) (no_overlap2 t) (t.length + 1) 0 q
      (by omega) (by omega) hq (matchAt2_len hq)
  · intro today tzMin
    simp [pipelineV1, List.map_map]
  · intro today tzMin
    simp [pipelineV2, List.map_map]

/-- Closed witness for C3 as amended: the valid whitespace-flanked token at
offset 1 of `" 2024-01-15 "` is reported by the V2 scan. -/
theorem C3_witness : (1 : ℕ) ∈ scanV2 (" 2024-01-15 ".toList) :=
  (C3_amended (" 2024-01-15 ".toList)).2.2.2.2.2.1 1 (by decide)

/-- C1: in the V1 variant (`src/src/extension.ts`) a structurally matching
but calendar-invalid token is NOT skipped.  On `" 2024-02-30 2024-03-01 "`,
for every reference date and time zone, the pipeline emits a styled range
`[1, 11)` for the invalid token `2024-02-30` — keyed by the NaN distance
(`new Date("2024-02-30")` is an Invalid Date) — before the valid token's
range `[12, 22)`; the scan does continue, but the invalid match contributes
a category (NaN) and a styled range, contradicting the claim. -/
theorem C1_invalid_not_skipped (today tzMin : ℤ) :
    (pipelineV1 today tzMin (" 2024-02-30 2024-03-01 ".toList)).map (fun r => r.2)
      = [(1, 11), (12, 22)]
    ∧ ((pipelineV1 today tzMin (" 2024-02-30 2024-03-01 ".toList)).map
        (fun r => r.1)).head? = some none :=
  ⟨rfl, rfl⟩
